import Mathlib

/-!
Verification of the rust-script build-cache orchestration engine

Shallow embedding of `src/main.rs`: the input model, fingerprint computation
(`compute_id`), package-name derivation (`package_name`), the action planner
(`decide_action_for`), the cache-store materialization (`gen_pkg_and_compile`,
`overwrite_file`, metadata read/write) over an explicit filesystem model, and
the cache evictor (`clean_cache`).

The SHA-1 digest (external `sha1` crate) is abstracted as a parameter
`sha1hex : String → String`: a streaming hasher is modelled by the
concatenation of everything fed to it, digested at `finalize`.  The constant
`consts::ID_DIGEST_LEN_MAX` (the `consts` module is not part of the embedded
source file) is abstracted as a parameter `idLen`.  Serde JSON
encoding/decoding of package metadata is abstracted as parameters
`encodeMeta` / `decodeMeta`.
-/

namespace RustScript

/-- Build kind selected by the user: `cargo run` / `cargo test` / `cargo bench`
(`build_kind` module). -/
inductive BuildKind where
  | Normal
  | Test
  | Bench
deriving DecidableEq, Repr

/-- An input source for a script (`enum Input` in `main.rs`).
`File name absolutePath content` or `Expr content`; the path is kept as the
string the Rust code hashes (`path.to_string_lossy()`). -/
inductive Input where
  | File (name : String) (path : String) (content : String)
  | Expr (content : String)
deriving DecidableEq, Repr

/-- Embeds `Input::safe_name`: the filename-safe name of the input. -/
def Input.safe_name : Input → String
  | .File name _ _ => name
  | .Expr _ => "expr"

/-- Rust `char::to_ascii_lowercase`: maps ASCII `'A'..='Z'` to `'a'..='z'`,
leaves everything else unchanged. -/
def to_ascii_lowercase (c : Char) : Char :=
  if 'A' ≤ c ∧ c ≤ 'Z' then Char.ofNat (c.toNat + 32) else c

/-- One step of the character loop in `Input::package_name`: given the
character index `i` and the character `c`, the characters pushed onto the
result (mirrors the `match (i, c)` arms, in order). -/
def package_name_char (i : Nat) (c : Char) : List Char :=
  if i = 0 ∧ '0' ≤ c ∧ c ≤ '9' then ['_', c]
  else if ('0' ≤ c ∧ c ≤ '9') ∨ ('a' ≤ c ∧ c ≤ 'z') ∨ c = '_' ∨ c = '-' then [c]
  else if 'A' ≤ c ∧ c ≤ 'Z' then [to_ascii_lowercase c]
  else ['_']

/-- Embeds `Input::package_name`: derive a valid Rust package identifier from the
safe name, iterating over `name.chars().enumerate()`. -/
def Input.package_name (input : Input) : String :=
  ⟨(input.safe_name.data.enum.map (fun ic => package_name_char ic.1 ic.2)).flatten⟩

/-- Embeds `hash_str`: digest of a single string (`Sha1::new`, one `update`,
`finalize` as lowercase hex). -/
def hash_str (sha1hex : String → String) (s : String) : String :=
  sha1hex s

/-- The byte stream fed to the hasher by `hash_deps` in `Input::compute_id`:
for each dependency `(n, v)`, the updates `"dep="`, `n`, `"="`, `v`, `";"`. -/
def hash_deps_stream (deps : List (String × String)) : String :=
  deps.foldl (fun acc d => acc ++ "dep=" ++ d.1 ++ "=" ++ d.2 ++ ";") ""

/-- Embeds `Input::compute_id`: the cache-slot identity.  For a `File` input, digest
of the absolute path; for an `Expr` input, digest of the dependency stream
followed by the expression text; either way truncated to `idLen`
(`consts::ID_DIGEST_LEN_MAX`).  Returns `MainResult` as in the source, where
both arms end in `Ok`. -/
def Input.compute_id (sha1hex : String → String) (idLen : Nat) (input : Input)
    (deps : List (String × String)) : Except String String :=
  match input with
  | .File _ path _ => .ok ((sha1hex path).take idLen)
  | .Expr content => .ok ((sha1hex (hash_deps_stream deps ++ content)).take idLen)

/-- The metadata snapshot describing a built package (`struct PackageMetadata`).
The Rust field `prelude` is named `prelude_items` here because `prelude` is a
Lean keyword. -/
structure PackageMetadata where
  path : Option String
  debug : Bool
  deps : List (String × String)
  prelude_items : List String
  features : Option String
  manifest_hash : String
  script_hash : String
deriving DecidableEq, Repr

/-- A file on disk: its byte content and the time of its last modification
(set by every write that actually touches the file). -/
structure FSFile where
  content : String
  mtime : Nat
deriving DecidableEq, Repr

/-- The filesystem world the cache-store operations act on.  Paths are lists
of components.  `faults` is a fault-injection script: each primitive I/O
operation that can fail in the source consumes one token, and a `true` token
makes that operation fail (modelling `std::io` errors, which are environment
events outside the program text). -/
structure World where
  dirs : List (List String)
  files : List String → Option FSFile
  faults : List Bool

/-- Consume the next fault-injection token (no token means no fault). -/
def World.takeFault (w : World) : Bool × World :=
  match w.faults with
  | [] => (false, w)
  | f :: r => (f, { w with faults := r })

/-- Record a file write at `path` with modification time `now`. -/
def World.writeFile (w : World) (path : List String) (content : String)
    (now : Nat) : World :=
  { w with files := fun q => if q = path then some ⟨content, now⟩ else w.files q }

/-- Embeds `fs::create_dir_all`: idempotent directory creation; consumes one fault
token. -/
def World.create_dir_all (w : World) (path : List String) :
    World × Except String Unit :=
  let (f, w) := w.takeFault
  if f then (w, .error "error creating directory")
  else ({ w with dirs := path :: w.dirs }, .ok ())

/-- Embeds `fs::remove_dir_all`: recursively remove a directory, its subdirectories
and every file below it. -/
def World.remove_dir_all (w : World) (path : List String) : World :=
  { w with
    dirs := w.dirs.filter (fun d => !path.isPrefixOf d),
    files := fun q => if path.isPrefixOf q then none else w.files q }

/-- Result of `overwrite_file` (`enum FileOverwrite`). -/
inductive FileOverwrite where
  | Same
  | Changed (new_hash : String)
deriving DecidableEq, Repr

/-- Embeds `overwrite_file`: hash the content; if it matches the given previous hash,
do nothing (`Same`).  Otherwise write the content through a same-directory
temporary file atomically persisted over the destination — collapsed here to
one atomic write consuming one fault token — and return `Changed` with the new
hash.  A path with no parent directory is an error, as in the source. -/
def overwrite_file (sha1hex : String → String) (now : Nat) (path : List String)
    (content : String) (hash : Option String) (w : World) :
    World × Except String FileOverwrite :=
  let new_hash := hash_str sha1hex content
  if hash = some new_hash then (w, .ok .Same)
  else if path = [] then (w, .error "The given path should be a file")
  else
    let (f, w) := w.takeFault
    if f then (w, .error "error writing file")
    else (w.writeFile path content now, .ok (.Changed new_hash))

/-- Embeds `get_pkg_metadata_path`: the metadata file inside a package directory. -/
def get_pkg_metadata_path (pkg_path : List String) : List String :=
  pkg_path ++ ["metadata.json"]

/-- Embeds `get_pkg_metadata`: open and decode the metadata file of a package
directory; a missing file or a decode failure is an `Err`. -/
def get_pkg_metadata (decodeMeta : String → Option PackageMetadata) (w : World)
    (pkg_path : List String) : Except String PackageMetadata :=
  match w.files (get_pkg_metadata_path pkg_path) with
  | none => .error "could not open metadata file"
  | some f =>
    match decodeMeta f.content with
    | none => .error "could not decode metadata"
    | some meta => .ok meta

/-- Embeds `write_pkg_metadata`: serialize the metadata and atomically persist it
over the metadata file (temp-file-then-rename collapsed to one atomic write
consuming one fault token). -/
def write_pkg_metadata (encodeMeta : PackageMetadata → String) (now : Nat)
    (pkg_path : List String) (meta : PackageMetadata) (w : World) :
    World × Except String Unit :=
  let (f, w) := w.takeFault
  if f then (w, .error "error writing metadata")
  else (w.writeFile (get_pkg_metadata_path pkg_path) (encodeMeta meta) now, .ok ())

/-- What to do with the input provided by the user (`struct InputAction`). -/
structure InputAction where
  cargo_output : Bool
  force_compile : Bool
  emit_metadata : Bool
  execute : Bool
  pkg_path : List String
  using_cache : Bool
  toolchain_version : Option String
  metadata : PackageMetadata
  old_metadata : Option PackageMetadata
  manifest : String
  script : String
  build_kind : BuildKind

/-- Embeds `InputAction::manifest_path`: `pkg_path.join("Cargo.toml")`. -/
def InputAction.manifest_path (a : InputAction) : List String :=
  a.pkg_path ++ ["Cargo.toml"]

/-- The run-configuration fields of `Args` consumed by the planner
(`arguments` module; field meanings are exactly how `decide_action_for`
reads them). -/
structure Args where
  debug : Bool
  force : Bool
  gen_pkg_only : Bool
  cargo_output : Bool
  build_kind : BuildKind
  pkg_path : Option (List String)
  features : Option String
  toolchain_version : Option String

/-- The package directory and whether it is cache-managed: the explicit
`--pkg-path` if given (not cache-managed), else `cacheRoot/input_id`
(cache-managed). -/
def planned_pkg_path (cacheRoot : List String) (args : Args) (input_id : String) :
    List String × Bool :=
  match args.pkg_path with
  | some p => (p, false)
  | none => (cacheRoot ++ [input_id], true)

/-- Embeds `decide_action_for`: construct the package metadata and the action plan,
checking the cache to see what should be done.  `split_input` is the external
manifest/script renderer (`manifest::split_input`, out of scope per the spec),
`decodeMeta` the serde JSON decoder. -/
def decide_action_for (sha1hex : String → String) (idLen : Nat)
    (cacheRoot : List String)
    (split_input : Input → List (String × String) → List String → String →
      Except String (String × String))
    (decodeMeta : String → Option PackageMetadata)
    (w : World) (input : Input) (deps : List (String × String))
    (prelude_items : List String) (args : Args) :
    Except String InputAction :=
  match input.compute_id sha1hex idLen deps with
  | .error e => .error e
  | .ok input_id =>
    let pp := planned_pkg_path cacheRoot args input_id
    let pkg_path := pp.1
    let using_cache := pp.2
    match split_input input deps prelude_items input_id with
    | .error e => .error e
    | .ok ms =>
      let mani_str := ms.1
      let script_str := ms.2
      let df := match args.build_kind with
        | .Normal => (args.debug, args.force)
        | .Test => (true, false)
        | .Bench => (false, false)
      let input_meta : PackageMetadata :=
        { path := match input with
            | .File _ p _ => some p
            | _ => none,
          debug := df.1, deps, prelude_items,
          features := args.features,
          manifest_hash := hash_str sha1hex mani_str,
          script_hash := hash_str sha1hex script_str }
      let toolchain_version := match args.toolchain_version with
        | some t => some t
        | none => match args.build_kind with
          | .Bench => some "nightly"
          | _ => none
      let action : InputAction :=
        { cargo_output := args.cargo_output, force_compile := df.2,
          emit_metadata := true, execute := true, pkg_path, using_cache,
          toolchain_version, metadata := input_meta, old_metadata := none,
          manifest := mani_str, script := script_str,
          build_kind := args.build_kind }
      if args.gen_pkg_only then .ok { action with execute := false }
      else match args.build_kind with
        | .Test | .Bench => .ok { action with force_compile := false }
        | .Normal =>
          let old := match get_pkg_metadata decodeMeta w pkg_path with
            | .ok meta => some meta
            | .error _ => none
          .ok { action with old_metadata := old }

/-- Embeds `gen_pkg_and_compile`: materialize the package directory.  Creates the
directory, overwrites the manifest (compared against the previous metadata's
manifest hash) and the script (hash ignored when `force_compile` is set), then
persists the metadata if the plan says so.  Any failure after directory
creation triggers the deferred cleanup.  The cleanup itself is `util::Defer`
(not part of the embedded source file); modelled from the spec: on any exit
before the success-path disarm, the entire package directory is removed — but
only when it is cache-managed, a user-specified directory is never deleted. -/
def gen_pkg_and_compile (sha1hex : String → String)
    (encodeMeta : PackageMetadata → String) (now : Nat) (input : Input)
    (action : InputAction) (w : World) : World × Except String Unit :=
  let pkg_path := action.pkg_path
  let old_meta := action.old_metadata
  match w.create_dir_all pkg_path with
  | (w, .error e) => (w, .error e)
  | (w, .ok _) =>
    let cleanup := fun (w : World) =>
      if action.using_cache then w.remove_dir_all pkg_path else w
    let mani_hash := old_meta.map (fun m => m.manifest_hash)
    match overwrite_file sha1hex now action.manifest_path action.manifest
        mani_hash w with
    | (w, .error e) => (cleanup w, .error e)
    | (w, .ok ov1) =>
      let meta1 := match ov1 with
        | .Same => action.metadata
        | .Changed new_hash => { action.metadata with manifest_hash := new_hash }
      let script_path := pkg_path ++ [input.safe_name ++ ".rs"]
      let script_hash := if action.force_compile then none
        else old_meta.map (fun m => m.script_hash)
      match overwrite_file sha1hex now script_path action.script script_hash w with
      | (w, .error e) => (cleanup w, .error e)
      | (w, .ok ov2) =>
        let meta2 := match ov2 with
          | .Same => meta1
          | .Changed new_hash => { meta1 with script_hash := new_hash }
        if action.emit_metadata then
          match write_pkg_metadata encodeMeta now pkg_path meta2 w with
          | (w, .error e) => (cleanup w, .error e)
          | (w, .ok _) => (w, .ok ())
        else (w, .ok ())

/-- One child of the generated-projects cache root as seen by `clean_cache`:
its name, whether it is a plain file (skipped by the sweep), and the
filesystem modification time of its `metadata.json` (`none` when that file
cannot be opened). -/
structure CacheEntry where
  name : String
  is_file : Bool
  meta_mtime : Option Nat
deriving DecidableEq, Repr

/-- The two cache subtrees swept by `clean_cache`: the contents of the binary
(compiled-artifact) cache, and the entries directly under the
generated-projects cache root. -/
structure CacheState where
  bin_cache : List String
  entries : List CacheEntry
deriving DecidableEq, Repr

/-- The `remove_dir` closure inside `clean_cache`: an entry whose metadata
file cannot be opened is removed immediately; otherwise it is removed when the
metadata file's modification time is at or before the cutoff. -/
def clean_cache_remove_dir (cutoff : Nat) (e : CacheEntry) : Bool :=
  match e.meta_mtime with
  | none => true
  | some meta_mtime => decide (meta_mtime ≤ cutoff)

/-- Embeds `clean_cache`: if `max_age` is zero, delete the entire binary cache
subtree first; then sweep the generated-projects cache root, skipping plain
files and recursively removing each entry directory selected by `remove_dir`
against the cutoff `now - max_age`.  Timestamps are in milliseconds as `Nat`
(the source uses `u128`; theorems assume `max_age ≤ now` so the subtraction
agrees). -/
def clean_cache (now max_age : Nat) (st : CacheState) : CacheState :=
  let st1 := if max_age = 0 then { st with bin_cache := [] } else st
  let cutoff := now - max_age
  { st1 with
    entries := st1.entries.filter
      (fun e => e.is_file || !(clean_cache_remove_dir cutoff e)) }

/-! Claims C3: the fingerprint engine -/

/-- C3: `compute_id` is a pure total function that never fails: for every
`File` input it returns the digest of the absolute path string truncated to
the fixed maximum length, with the dependency list having no effect on the
result; for every `Expr` input it returns the digest of the concatenation of
each `(name, version)` pair in the given order followed by the expression
text, truncated identically; two calls with identical inputs return identical
identities. -/
theorem compute_id_spec (sha1hex : String → String) (idLen : Nat) :
    (∀ (input : Input) (deps : List (String × String)),
      ∃ id, input.compute_id sha1hex idLen deps = .ok id) ∧
    (∀ (name path content : String) (deps deps' : List (String × String)),
      (Input.File name path content).compute_id sha1hex idLen deps =
        .ok ((sha1hex path).take idLen) ∧
      (Input.File name path content).compute_id sha1hex idLen deps =
        (Input.File name path content).compute_id sha1hex idLen deps') ∧
    (∀ (content : String) (deps : List (String × String)),
      (Input.Expr content).compute_id sha1hex idLen deps =
        .ok ((sha1hex (hash_deps_stream deps ++ content)).take idLen)) ∧
    (∀ (i₁ i₂ : Input) (d₁ d₂ : List (String × String)), i₁ = i₂ → d₁ = d₂ →
      i₁.compute_id sha1hex idLen d₁ = i₂.compute_id sha1hex idLen d₂) := by
  refine ⟨fun input deps => ?_, fun n p c d d' => ⟨rfl, rfl⟩,
    fun c d => rfl, fun i₁ i₂ d₁ d₂ h₁ h₂ => by rw [h₁, h₂]⟩
  cases input <;> exact ⟨_, rfl⟩

/-- Witness for C3 at concrete inputs. -/
theorem compute_id_spec_witness :
    (∃ id, (Input.File "n" "/tmp/n.rs" "c").compute_id (fun s => s) 6 [] = .ok id) ∧
    (Input.Expr "1+1").compute_id (fun s => s) 6 [("a", "1")] =
      (Input.Expr "1+1").compute_id (fun s => s) 6 [("a", "1")] :=
  ⟨(compute_id_spec (fun s => s) 6).1 _ _,
    (compute_id_spec (fun s => s) 6).2.2.2 _ _ _ _ rfl rfl⟩

/-! Claims C8 and C7: the evictor -/

/-- C8: an eviction sweep with `max_age = 0` is a full clear: the entire
binary (compiled-artifact) cache subtree is deleted unconditionally, whatever
entries it contains. -/
theorem clean_cache_full_clear (now : Nat) (st : CacheState) :
    (clean_cache now 0 st).bin_cache = [] := by
  simp [clean_cache]

/-- C7: with `max_age > 0` (and `max_age ≤ now`, as in any real sweep), an
entry directory is kept exactly when its metadata mtime is strictly newer
than `now - max_age` (so it is removed exactly when the mtime is at or before
the cutoff, and immediately when the metadata is missing); plain files are
skipped; the binary cache is untouched; and with three entries of mtimes
`now-10000`, `now-5000`, `now-1000`, a sweep with `max_age = 6000` removes
exactly the first. -/
theorem clean_cache_sweep (now max_age : Nat) (st : CacheState)
    (hpos : 0 < max_age) (hle : max_age ≤ now) :
    (∀ e : CacheEntry, e ∈ (clean_cache now max_age st).entries ↔
      (e ∈ st.entries ∧ (e.is_file = true ∨
        ∃ t, e.meta_mtime = some t ∧ now - max_age < t))) ∧
    (clean_cache now max_age st).bin_cache = st.bin_cache ∧
    (10000 ≤ now → ∀ (n₁ n₂ n₃ : String),
      (clean_cache now 6000
        ⟨st.bin_cache,
          [⟨n₁, false, some (now - 10000)⟩, ⟨n₂, false, some (now - 5000)⟩,
           ⟨n₃, false, some (now - 1000)⟩]⟩).entries =
      [⟨n₂, false, some (now - 5000)⟩, ⟨n₃, false, some (now - 1000)⟩]) := by
  refine ⟨fun e => ?_, ?_, fun hnow n₁ n₂ n₃ => ?_⟩
  · simp only [clean_cache, if_neg (Nat.pos_iff_ne_zero.mp hpos), List.mem_filter,
      Bool.or_eq_true, Bool.not_eq_true']
    constructor
    · rintro ⟨hm, hcond⟩
      refine ⟨hm, ?_⟩
      rcases hcond with h | h
      · exact Or.inl h
      · unfold clean_cache_remove_dir at h
        rcases hmt : e.meta_mtime with _ | t
        · rw [hmt] at h; simp at h
        · rw [hmt] at h
          simp only [decide_eq_false_iff_not, Nat.not_le] at h
          exact Or.inr ⟨t, rfl, h⟩
    · rintro ⟨hm, hcond⟩
      refine ⟨hm, ?_⟩
      rcases hcond with h | ⟨t, ht, hgt⟩
      · exact Or.inl h
      · refine Or.inr ?_
        unfold clean_cache_remove_dir
        rw [ht]
        simp [Nat.not_le.mpr hgt]
  · simp [clean_cache, if_neg (Nat.pos_iff_ne_zero.mp hpos)]
  · have h1 : now - 10000 ≤ now - 6000 := by omega
    have h2 : ¬(now - 5000 ≤ now - 6000) := by omega
    have h3 : ¬(now - 1000 ≤ now - 6000) := by omega
    simp [clean_cache, clean_cache_remove_dir, h1, h2, h3]

/-- Witness for C7 at concrete inputs. -/
theorem clean_cache_sweep_witness :
    (clean_cache 20000 6000
      ⟨[], [⟨"a", false, some 10000⟩, ⟨"b", false, some 15000⟩,
            ⟨"c", false, some 19000⟩]⟩).entries =
    [⟨"b", false, some 15000⟩, ⟨"c", false, some 19000⟩] := by
  have h := (clean_cache_sweep 20000 6000
    ⟨[], [⟨"a", false, some 10000⟩, ⟨"b", false, some 15000⟩,
          ⟨"c", false, some 19000⟩]⟩ (by decide) (by decide)).2.2 (by decide) "a" "b" "c"
  simpa using h

/-! Claims C4: atomic overwrite -/

/-- Helper: the `Same` branch of `overwrite_file` — when the content hash
matches the previous hash, nothing at all happens. -/
theorem overwrite_file_same_eq (sha1hex : String → String) (now : Nat)
    (path : List String) (content : String) (hash : Option String) (w : World)
    (h : hash = some (hash_str sha1hex content)) :
    overwrite_file sha1hex now path content hash w = (w, .ok .Same) := by
  simp [overwrite_file, h]

/-- Helper: the `Changed` branch of `overwrite_file` — when the hashes differ,
the path has a parent and no fault is injected, the file is atomically
replaced. -/
theorem overwrite_file_changed_eq (sha1hex : String → String) (now : Nat)
    (path : List String) (content : String) (hash : Option String) (w : World)
    (h : hash ≠ some (hash_str sha1hex content)) (hp : path ≠ [])
    (hf : w.takeFault.1 = false) :
    overwrite_file sha1hex now path content hash w =
      (w.takeFault.2.writeFile path content now,
        .ok (.Changed (hash_str sha1hex content))) := by
  rcases hfw : w.takeFault with ⟨f, w2⟩
  rw [hfw] at hf
  simp only at hf
  subst hf
  simp [overwrite_file, h, hp, hfw]

/-- Helper: `writeFile` makes the written content readable at the path. -/
theorem writeFile_read_self (w : World) (path : List String) (content : String)
    (now : Nat) : (w.writeFile path content now).files path = some ⟨content, now⟩ := by
  simp [World.writeFile]

/-- C4: `overwrite_file` returns `Same`, writing nothing, exactly when the
hash of the content equals the given previous hash; otherwise (for a path
with a parent directory and no injected I/O fault) it returns `Changed` with
a new hash equal to the hash of the content now readable at the path. -/
theorem overwrite_file_spec (sha1hex : String → String) (now : Nat)
    (path : List String) (content : String) (hash : Option String) (w : World) :
    (hash = some (hash_str sha1hex content) →
      overwrite_file sha1hex now path content hash w = (w, .ok .Same)) ∧
    (hash ≠ some (hash_str sha1hex content) → path ≠ [] →
      w.takeFault.1 = false →
      ∃ w' f, overwrite_file sha1hex now path content hash w =
          (w', .ok (.Changed (hash_str sha1hex content))) ∧
        w'.files path = some f ∧ f.content = content ∧
        hash_str sha1hex f.content = hash_str sha1hex content) := by
  refine ⟨fun h => overwrite_file_same_eq sha1hex now path content hash w h,
    fun h hp hf => ?_⟩
  refine ⟨w.takeFault.2.writeFile path content now, ⟨content, now⟩,
    overwrite_file_changed_eq sha1hex now path content hash w h hp hf,
    writeFile_read_self _ _ _ _, rfl, rfl⟩

/-- Witness for C4 at concrete inputs: a matching previous hash yields `Same`
and an absent previous hash yields `Changed` with the hash of the written
content. -/
theorem overwrite_file_spec_witness :
    (overwrite_file (fun s => s) 5 ["d", "f"] "abc" (some "abc")
        ⟨[], fun _ => none, []⟩ = (⟨[], fun _ => none, []⟩, .ok .Same)) ∧
    (∃ w' f, overwrite_file (fun s => s) 5 ["d", "f"] "abc" none
        ⟨[], fun _ => none, []⟩ = (w', .ok (.Changed ((fun s => s) "abc"))) ∧
      w'.files ["d", "f"] = some f ∧ f.content = "abc" ∧
      (fun s => s) f.content = (fun s => s) "abc") :=
  ⟨(overwrite_file_spec (fun s => s) 5 ["d", "f"] "abc" (some "abc")
      ⟨[], fun _ => none, []⟩).1 rfl,
    (overwrite_file_spec (fun s => s) 5 ["d", "f"] "abc" none
      ⟨[], fun _ => none, []⟩).2 (by simp [hash_str]) (by simp) rfl⟩

/-! Claims C2 and C5: the action planner -/

/-- C2: planning with build kind `Test` or `Bench` disables forced
recompilation and never loads prior metadata, for every force flag value;
`Test` forces `debug = true`, `Bench` forces `debug = false`, and `Normal`
keeps the user-supplied `debug` and `force` values. -/
theorem decide_action_for_build_kind (sha1hex : String → String) (idLen : Nat)
    (cacheRoot : List String)
    (split_input : Input → List (String × String) → List String → String →
      Except String (String × String))
    (decodeMeta : String → Option PackageMetadata)
    (w : World) (input : Input) (deps : List (String × String))
    (prelude_items : List String) (args : Args) (iid : String)
    (ms : String × String)
    (hid : input.compute_id sha1hex idLen deps = .ok iid)
    (hsplit : split_input input deps prelude_items iid = .ok ms) :
    ∃ a, decide_action_for sha1hex idLen cacheRoot split_input decodeMeta w
        input deps prelude_items args = .ok a ∧
      ((args.build_kind = .Test ∨ args.build_kind = .Bench) →
        a.force_compile = false ∧ a.old_metadata = none) ∧
      (args.build_kind = .Test → a.metadata.debug = true) ∧
      (args.build_kind = .Bench → a.metadata.debug = false) ∧
      (args.build_kind = .Normal →
        a.force_compile = args.force ∧ a.metadata.debug = args.debug) := by
  rcases hbk : args.build_kind <;> cases hg : args.gen_pkg_only <;>
    simp only [decide_action_for, hid, hsplit, hbk, hg, Bool.false_eq_true,
      if_false, if_true] <;>
    exact ⟨_, rfl, by simp [hbk]⟩

/-- Witness for C2 at concrete inputs (a `Test` run with `force` set). -/
theorem decide_action_for_build_kind_witness :
    ∃ a, decide_action_for (fun s => s) 6 ["root"]
        (fun _ _ _ _ => .ok ("m", "s")) (fun _ => none)
        ⟨[], fun _ => none, []⟩ (Input.Expr "x") [] []
        ⟨false, true, false, false, .Test, none, none, none⟩ = .ok a ∧
      a.force_compile = false ∧ a.old_metadata = none := by
  obtain ⟨a, ha, h1, _⟩ := decide_action_for_build_kind (fun s => s) 6 ["root"]
    (fun _ _ _ _ => .ok ("m", "s")) (fun _ => none)
    ⟨[], fun _ => none, []⟩ (Input.Expr "x") [] []
    ⟨false, true, false, false, .Test, none, none, none⟩ "x" ("m", "s")
    rfl rfl
  exact ⟨a, ha, (h1 (Or.inl rfl)).1, (h1 (Or.inl rfl)).2⟩

/-- C5: during planning for a `Normal` build, a failure to load the metadata
file (missing or unparseable) is not fatal — the planner still returns a
plan, with the prior metadata recorded as absent. -/
theorem decide_action_for_metadata_miss (sha1hex : String → String)
    (idLen : Nat) (cacheRoot : List String)
    (split_input : Input → List (String × String) → List String → String →
      Except String (String × String))
    (decodeMeta : String → Option PackageMetadata)
    (w : World) (input : Input) (deps : List (String × String))
    (prelude_items : List String) (args : Args) (iid : String)
    (ms : String × String) (err : String)
    (hid : input.compute_id sha1hex idLen deps = .ok iid)
    (hsplit : split_input input deps prelude_items iid = .ok ms)
    (hnormal : args.build_kind = .Normal)
    (hmiss : get_pkg_metadata decodeMeta w
      (planned_pkg_path cacheRoot args iid).1 = .error err) :
    ∃ a, decide_action_for sha1hex idLen cacheRoot split_input decodeMeta w
        input deps prelude_items args = .ok a ∧ a.old_metadata = none := by
  cases hg : args.gen_pkg_only <;>
    simp only [decide_action_for, hid, hsplit, hnormal, hg, hmiss,
      Bool.false_eq_true, if_false, if_true] <;>
    exact ⟨_, rfl, by simp⟩

/-- Witness for C5 at concrete inputs (empty filesystem, so the metadata read
fails with a missing file). -/
theorem decide_action_for_metadata_miss_witness :
    ∃ a, decide_action_for (fun s => s) 6 ["root"]
        (fun _ _ _ _ => .ok ("m", "s")) (fun _ => none)
        ⟨[], fun _ => none, []⟩ (Input.Expr "x") [] []
        ⟨false, false, false, false, .Normal, none, none, none⟩ = .ok a ∧
      a.old_metadata = none :=
  decide_action_for_metadata_miss (fun s => s) 6 ["root"]
    (fun _ _ _ _ => .ok ("m", "s")) (fun _ => none)
    ⟨[], fun _ => none, []⟩ (Input.Expr "x") [] []
    ⟨false, false, false, false, .Normal, none, none, none⟩ "x" ("m", "s")
    "could not open metadata file" rfl rfl rfl rfl

/-! Claims C1 and C6: materialization -/

/-- Helper: with an empty fault script, `takeFault` reports no fault and
leaves the world unchanged. -/
theorem takeFault_of_nil {w : World} (h : w.faults = []) :
    w.takeFault = (false, w) := by
  simp [World.takeFault, h]

/-- Helper: `takeFault` only consumes the fault script. -/
theorem takeFault_files (w : World) : w.takeFault.2.files = w.files := by
  rcases hf : w.faults <;> simp [World.takeFault, hf]

/-- Helper: `takeFault` only consumes the fault script. -/
theorem takeFault_dirs (w : World) : w.takeFault.2.dirs = w.dirs := by
  rcases hf : w.faults <;> simp [World.takeFault, hf]

/-- Helper: a write never deletes a file. -/
theorem writeFile_files_none {w : World} {p : List String} {c : String}
    {t : Nat} {q : List String} (h : (w.writeFile p c t).files q = none) :
    w.files q = none := by
  simp only [World.writeFile] at h
  split at h
  · exact absurd h (by simp)
  · exact h

/-- Helper: a write does not touch other paths. -/
theorem writeFile_files_other {w : World} {p : List String} {c : String}
    {t : Nat} {q : List String} (h : q ≠ p) :
    (w.writeFile p c t).files q = w.files q := by
  simp [World.writeFile, h]

/-- Helper: a write does not touch directories. -/
theorem writeFile_dirs (w : World) (p : List String) (c : String) (t : Nat) :
    (w.writeFile p c t).dirs = w.dirs := rfl

/-- Helper: `overwrite_file` never deletes a file, and leaves directories
unchanged. -/
theorem overwrite_file_mono {sha1hex : String → String} {now : Nat}
    {path : List String} {content : String} {hash : Option String}
    {w w' : World} {r : Except String FileOverwrite}
    (h : overwrite_file sha1hex now path content hash w = (w', r)) :
    (∀ q, w'.files q = none → w.files q = none) ∧ w'.dirs = w.dirs := by
  simp only [overwrite_file] at h
  split at h
  · injection h with h1 h2
    subst h1
    exact ⟨fun q hq => hq, rfl⟩
  · split at h
    · injection h with h1 h2
      subst h1
      exact ⟨fun q hq => hq, rfl⟩
    · rcases htf : w.takeFault with ⟨f, w2⟩
      rw [htf] at h
      have hw2f : w2.files = w.files := by rw [← takeFault_files w, htf]
      have hw2d : w2.dirs = w.dirs := by rw [← takeFault_dirs w, htf]
      dsimp only at h
      split at h
      · injection h with h1 h2
        subst h1
        rw [hw2f, hw2d]
        exact ⟨fun q hq => hq, rfl⟩
      · injection h with h1 h2
        subst h1
        refine ⟨fun q hq => ?_, ?_⟩
        · have := writeFile_files_none hq
          rwa [hw2f] at this
        · rw [writeFile_dirs, hw2d]

/-- Helper: `write_pkg_metadata` never deletes a file, and leaves directories
unchanged. -/
theorem write_pkg_metadata_mono {encodeMeta : PackageMetadata → String}
    {now : Nat} {pkg_path : List String} {meta : PackageMetadata}
    {w w' : World} {r : Except String Unit}
    (h : write_pkg_metadata encodeMeta now pkg_path meta w = (w', r)) :
    (∀ q, w'.files q = none → w.files q = none) ∧ w'.dirs = w.dirs := by
  simp only [write_pkg_metadata] at h
  rcases htf : w.takeFault with ⟨f, w2⟩
  rw [htf] at h
  have hw2f : w2.files = w.files := by rw [← takeFault_files w, htf]
  have hw2d : w2.dirs = w.dirs := by rw [← takeFault_dirs w, htf]
  dsimp only at h
  split at h
  · injection h with h1 h2
    subst h1
    rw [hw2f, hw2d]
    exact ⟨fun q hq => hq, rfl⟩
  · injection h with h1 h2
    subst h1
    refine ⟨fun q hq => ?_, ?_⟩
    · have := writeFile_files_none hq
      rwa [hw2f] at this
    · rw [writeFile_dirs, hw2d]

/-- Helper: directory creation with an empty fault script. -/
theorem create_dir_all_of_nil {w : World} (p : List String)
    (hnil : w.faults = []) :
    w.create_dir_all p = ({ w with dirs := p :: w.dirs }, .ok ()) := by
  simp [World.create_dir_all, takeFault_of_nil hnil]

/-- Helper: the `Changed` branch of `overwrite_file` with an empty fault
script. -/
theorem overwrite_file_changed_of_nil {sha1hex : String → String} {now : Nat}
    {path : List String} {content : String} {hash : Option String} {w : World}
    (h : hash ≠ some (hash_str sha1hex content)) (hp : path ≠ [])
    (hnil : w.faults = []) :
    overwrite_file sha1hex now path content hash w =
      (w.writeFile path content now,
        .ok (.Changed (hash_str sha1hex content))) := by
  rw [overwrite_file_changed_eq sha1hex now path content hash w h hp
    (by rw [takeFault_of_nil hnil]), takeFault_of_nil hnil]

/-- Helper: metadata persistence with an empty fault script. -/
theorem write_pkg_metadata_of_nil {encodeMeta : PackageMetadata → String}
    {now : Nat} {pkg_path : List String} {meta : PackageMetadata} {w : World}
    (hnil : w.faults = []) :
    write_pkg_metadata encodeMeta now pkg_path meta w =
      (w.writeFile (get_pkg_metadata_path pkg_path) (encodeMeta meta) now,
        .ok ()) := by
  simp [write_pkg_metadata, takeFault_of_nil hnil]

/-- Helper: sibling files of one directory are distinct paths. -/
theorem append_singleton_ne (l : List String) {a b : String} (h : a ≠ b) :
    l ++ [a] ≠ l ++ [b] := by
  intro hc
  exact h (by simpa using List.append_cancel_left hc)

/-- C1 counterexample: a concrete plan with `force_compile` set whose
materialization leaves the manifest file untouched (`Same`, modification time
still `0`) because its content hash matches the previous metadata's recorded
manifest hash, while the byte-identical script is overwritten (modification
time becomes `7`): with force set, the previous hashes are NOT ignored for
the manifest, only for the script. -/
theorem gen_pkg_and_compile_force_manifest_counterexample :
    (InputAction.force_compile
      ⟨false, true, false, true, ["c", "id"], true, none,
        ⟨none, false, [], [], none, "M", "S"⟩,
        some ⟨none, false, [], [], none, "M", "S"⟩, "M", "S", .Normal⟩ = true) ∧
    (gen_pkg_and_compile (fun s => s) (fun _ => "") 7 (Input.Expr "e")
        ⟨false, true, false, true, ["c", "id"], true, none,
          ⟨none, false, [], [], none, "M", "S"⟩,
          some ⟨none, false, [], [], none, "M", "S"⟩, "M", "S", .Normal⟩
        ⟨[["c", "id"]],
          fun q => if q = ["c", "id", "Cargo.toml"] then some ⟨"M", 0⟩
            else if q = ["c", "id", "expr.rs"] then some ⟨"S", 0⟩ else none,
          []⟩).2 = .ok () ∧
    (gen_pkg_and_compile (fun s => s) (fun _ => "") 7 (Input.Expr "e")
        ⟨false, true, false, true, ["c", "id"], true, none,
          ⟨none, false, [], [], none, "M", "S"⟩,
          some ⟨none, false, [], [], none, "M", "S"⟩, "M", "S", .Normal⟩
        ⟨[["c", "id"]],
          fun q => if q = ["c", "id", "Cargo.toml"] then some ⟨"M", 0⟩
            else if q = ["c", "id", "expr.rs"] then some ⟨"S", 0⟩ else none,
          []⟩).1.files ["c", "id", "Cargo.toml"] = some ⟨"M", 0⟩ ∧
    (gen_pkg_and_compile (fun s => s) (fun _ => "") 7 (Input.Expr "e")
        ⟨false, true, false, true, ["c", "id"], true, none,
          ⟨none, false, [], [], none, "M", "S"⟩,
          some ⟨none, false, [], [], none, "M", "S"⟩, "M", "S", .Normal⟩
        ⟨[["c", "id"]],
          fun q => if q = ["c", "id", "Cargo.toml"] then some ⟨"M", 0⟩
            else if q = ["c", "id", "expr.rs"] then some ⟨"S", 0⟩ else none,
          []⟩).1.files ["c", "id", "expr.rs"] = some ⟨"S", 7⟩ := by
  refine ⟨rfl, ?_, ?_, ?_⟩ <;> rfl

/-- C1 (amended): during materialization with `force_compile` set and no
injected I/O fault, the script is always overwritten — `Changed`, modification
time set to `now` even for byte-identical content — while the manifest is
still compared against the previous metadata's recorded manifest hash: it is
left untouched exactly when that hash matches the rendered manifest's hash,
and overwritten otherwise. -/
theorem gen_pkg_and_compile_force_spec (sha1hex : String → String)
    (encodeMeta : PackageMetadata → String) (now : Nat) (input : Input)
    (action : InputAction) (w : World)
    (hforce : action.force_compile = true)
    (hfaults : w.faults = [])
    (hs1 : input.safe_name ++ ".rs" ≠ "Cargo.toml")
    (hs2 : input.safe_name ++ ".rs" ≠ "metadata.json") :
    ∃ w', gen_pkg_and_compile sha1hex encodeMeta now input action w =
        (w', .ok ()) ∧
      w'.files (action.pkg_path ++ [input.safe_name ++ ".rs"]) =
        some ⟨action.script, now⟩ ∧
      (action.old_metadata.map (fun m => m.manifest_hash) =
          some (hash_str sha1hex action.manifest) →
        w'.files action.manifest_path = w.files action.manifest_path) ∧
      (action.old_metadata.map (fun m => m.manifest_hash) ≠
          some (hash_str sha1hex action.manifest) →
        w'.files action.manifest_path = some ⟨action.manifest, now⟩) := by
  have hsp : action.pkg_path ++ [input.safe_name ++ ".rs"] ≠ [] := by simp
  have hmp : action.manifest_path ≠ [] := by simp [InputAction.manifest_path]
  have hspmani : action.pkg_path ++ [input.safe_name ++ ".rs"] ≠
      action.manifest_path := by
    simpa [InputAction.manifest_path] using
      append_singleton_ne action.pkg_path hs1
  have hspmeta : get_pkg_metadata_path action.pkg_path ≠
      action.pkg_path ++ [input.safe_name ++ ".rs"] := by
    simpa [get_pkg_metadata_path] using
      (append_singleton_ne action.pkg_path hs2).symm
  have hmanimeta : get_pkg_metadata_path action.pkg_path ≠
      action.manifest_path :=
    append_singleton_ne action.pkg_path
      (show "metadata.json" ≠ "Cargo.toml" by decide)
  have h1 : w.create_dir_all action.pkg_path =
      ({ w with dirs := action.pkg_path :: w.dirs }, .ok ()) :=
    create_dir_all_of_nil action.pkg_path hfaults
  by_cases hm : action.old_metadata.map (fun m => m.manifest_hash) =
      some (hash_str sha1hex action.manifest)
  · -- manifest hashes match: `Same`, manifest untouched
    have h2 := overwrite_file_same_eq sha1hex now action.manifest_path
      action.manifest (action.old_metadata.map (fun m => m.manifest_hash))
      { w with dirs := action.pkg_path :: w.dirs } hm
    have h3 := @overwrite_file_changed_of_nil sha1hex now
      (action.pkg_path ++ [input.safe_name ++ ".rs"])
      action.script none
      { w with dirs := action.pkg_path :: w.dirs }
      (by simp) hsp hfaults
    cases he : action.emit_metadata
    · refine ⟨({ w with dirs := action.pkg_path :: w.dirs }).writeFile
        (action.pkg_path ++ [input.safe_name ++ ".rs"]) action.script now,
        ?_, ?_, fun _ => ?_, fun hc => absurd hm hc⟩
      · simp only [gen_pkg_and_compile, h1, hforce, h2, h3, he, if_true,
          if_false, Bool.false_eq_true]
      · exact writeFile_read_self _ _ _ _
      · rw [writeFile_files_other hspmani.symm]
    · refine ⟨(({ w with dirs := action.pkg_path :: w.dirs }).writeFile
        (action.pkg_path ++ [input.safe_name ++ ".rs"]) action.script
        now).writeFile (get_pkg_metadata_path action.pkg_path)
          (encodeMeta { action.metadata with
            script_hash := hash_str sha1hex action.script }) now,
        ?_, ?_, fun _ => ?_, fun hc => absurd hm hc⟩
      · simp only [gen_pkg_and_compile, h1, hforce, h2, h3, he, if_true,
          if_false, Bool.false_eq_true]
        rw [write_pkg_metadata_of_nil (show (({ w with
          dirs := action.pkg_path :: w.dirs }).writeFile
          (action.pkg_path ++ [input.safe_name ++ ".rs"]) action.script
          now).faults = [] from hfaults)]
      · rw [writeFile_files_other hspmeta.symm]
        exact writeFile_read_self _ _ _ _
      · rw [writeFile_files_other hmanimeta.symm,
          writeFile_files_other hspmani.symm]
  · -- manifest hashes differ: manifest overwritten too
    have h2 := @overwrite_file_changed_of_nil sha1hex now
      action.manifest_path action.manifest
      (action.old_metadata.map (fun m => m.manifest_hash))
      { w with dirs := action.pkg_path :: w.dirs } hm hmp hfaults
    have h3 := @overwrite_file_changed_of_nil sha1hex now
      (action.pkg_path ++ [input.safe_name ++ ".rs"])
      action.script none
      (({ w with dirs := action.pkg_path :: w.dirs }).writeFile
        action.manifest_path action.manifest now)
      (by simp) hsp hfaults
    cases he : action.emit_metadata
    · refine ⟨(({ w with dirs := action.pkg_path :: w.dirs }).writeFile
        action.manifest_path action.manifest now).writeFile
        (action.pkg_path ++ [input.safe_name ++ ".rs"]) action.script now,
        ?_, ?_, fun hc => absurd hc hm, fun _ => ?_⟩
      · simp only [gen_pkg_and_compile, h1, hforce, h2, h3, he, if_true,
          if_false, Bool.false_eq_true]
      · exact writeFile_read_self _ _ _ _
      · rw [writeFile_files_other hspmani.symm]
        exact writeFile_read_self _ _ _ _
    · refine ⟨((({ w with dirs := action.pkg_path :: w.dirs }).writeFile
        action.manifest_path action.manifest now).writeFile
        (action.pkg_path ++ [input.safe_name ++ ".rs"]) action.script
        now).writeFile (get_pkg_metadata_path action.pkg_path)
          (encodeMeta { action.metadata with
            manifest_hash := hash_str sha1hex action.manifest,
            script_hash := hash_str sha1hex action.script }) now,
        ?_, ?_, fun hc => absurd hc hm, fun _ => ?_⟩
      · simp only [gen_pkg_and_compile, h1, hforce, h2, h3, he, if_true,
          if_false, Bool.false_eq_true]
        rw [write_pkg_metadata_of_nil (show ((({ w with
          dirs := action.pkg_path :: w.dirs }).writeFile
          action.manifest_path action.manifest now).writeFile
          (action.pkg_path ++ [input.safe_name ++ ".rs"]) action.script
          now).faults = [] from hfaults)]
      · rw [writeFile_files_other hspmeta.symm]
        exact writeFile_read_self _ _ _ _
      · rw [writeFile_files_other hmanimeta.symm,
          writeFile_files_other hspmani.symm]
        exact writeFile_read_self _ _ _ _

/-- Witness for C1 (amended) at concrete inputs. -/
theorem gen_pkg_and_compile_force_spec_witness :
    ∃ w', gen_pkg_and_compile (fun s => s) (fun _ => "") 7 (Input.Expr "e")
        ⟨false, true, false, true, ["c", "id"], true, none,
          ⟨none, false, [], [], none, "M", "S"⟩,
          some ⟨none, false, [], [], none, "M", "S"⟩, "M", "S", .Normal⟩
        ⟨[["c", "id"]], fun _ => none, []⟩ = (w', .ok ()) ∧
      w'.files (["c", "id"] ++ ["expr" ++ ".rs"]) = some ⟨"S", 7⟩ :=
  match gen_pkg_and_compile_force_spec (fun s => s) (fun _ => "") 7
    (Input.Expr "e")
    ⟨false, true, false, true, ["c", "id"], true, none,
      ⟨none, false, [], [], none, "M", "S"⟩,
      some ⟨none, false, [], [], none, "M", "S"⟩, "M", "S", .Normal⟩
    ⟨[["c", "id"]], fun _ => none, []⟩ rfl rfl (by decide) (by decide) with
  | ⟨w', h1, h2, _, _⟩ => ⟨w', h1, h2⟩

/-- C6: if any materialization step after directory creation fails and the
target directory is cache-managed, the entire partially-built package
directory is deleted (no file below it survives, no directory below it
remains) before the error propagates; if the target directory is an explicit
user-specified path, nothing is ever deleted; and on success nothing is
deleted and the directory is kept, in both cases. -/
theorem gen_pkg_and_compile_cleanup (sha1hex : String → String)
    (encodeMeta : PackageMetadata → String) (now : Nat) (input : Input)
    (action : InputAction) (w wf : World) (res : Except String Unit)
    (hcreate : w.takeFault.1 = false)
    (hr : gen_pkg_and_compile sha1hex encodeMeta now input action w = (wf, res)) :
    (action.using_cache = true → ∀ e, res = .error e →
      (∀ p, action.pkg_path.isPrefixOf p = true → wf.files p = none) ∧
      (∀ d, d ∈ wf.dirs → action.pkg_path.isPrefixOf d = false)) ∧
    (action.using_cache = false → ∀ e, res = .error e →
      (∀ p, wf.files p = none → w.files p = none) ∧
      action.pkg_path ∈ wf.dirs) ∧
    (res = .ok () →
      (∀ p, wf.files p = none → w.files p = none) ∧
      action.pkg_path ∈ wf.dirs) := by
  rcases htf : w.takeFault with ⟨f, w0⟩
  rw [htf] at hcreate
  simp only at hcreate
  subst hcreate
  have h0f : w0.files = w.files := by rw [← takeFault_files w, htf]
  have h0d : w0.dirs = w.dirs := by rw [← takeFault_dirs w, htf]
  simp only [gen_pkg_and_compile, World.create_dir_all, htf,
    Bool.false_eq_true, if_false] at hr
  split at hr
  case _ w1 e heq =>
    -- manifest write failed
    have hm1 := overwrite_file_mono heq
    refine ⟨fun hu e' hres => ?_, fun hu e' hres => ?_, fun hok => ?_⟩
    · rw [hu] at hr; rw [if_pos rfl] at hr
      injection hr with hwf hres'
      subst hwf
      constructor
      · intro p hp
        have hp2 : action.pkg_path <+: p := by
          rw [← List.isPrefixOf_iff_prefix]
          exact hp
        simp [World.remove_dir_all, hp2]
      · intro d hd
        simp only [World.remove_dir_all, List.mem_filter] at hd
        simpa using hd.2
    · rw [hu] at hr
      simp only [Bool.false_eq_true, if_false] at hr
      injection hr with hwf hres'
      subst hwf
      constructor
      · intro p hp
        have h2 : w0.files p = none := hm1.1 p hp
        rwa [h0f] at h2
      · have : w1.dirs = action.pkg_path :: w0.dirs := hm1.2
        rw [this]
        exact List.mem_cons_self _ _
    · injection hr with hwf hres'
      rw [← hres'] at hok
      exact absurd hok (by simp)
  case _ w1 ov1 heq =>
    have hm1 := overwrite_file_mono heq
    split at hr
    case _ w2 e heq2 =>
      -- script write failed
      have hm2 := overwrite_file_mono heq2
      refine ⟨fun hu e' hres => ?_, fun hu e' hres => ?_, fun hok => ?_⟩
      · rw [hu] at hr; rw [if_pos rfl] at hr
        injection hr with hwf hres'
        subst hwf
        constructor
        · intro p hp
          have hp2 : action.pkg_path <+: p := by
            rw [← List.isPrefixOf_iff_prefix]
            exact hp
          simp [World.remove_dir_all, hp2]
        · intro d hd
          simp only [World.remove_dir_all, List.mem_filter] at hd
          simpa using hd.2
      · rw [hu] at hr
        simp only [Bool.false_eq_true, if_false] at hr
        injection hr with hwf hres'
        subst hwf
        constructor
        · intro p hp
          have h2 : w0.files p = none := hm1.1 p (hm2.1 p hp)
          rwa [h0f] at h2
        · have h3 : w2.dirs = action.pkg_path :: w0.dirs := by
            rw [hm2.2]; exact hm1.2
          rw [h3]
          exact List.mem_cons_self _ _
      · injection hr with hwf hres'
        rw [← hres'] at hok
        exact absurd hok (by simp)
    case _ w2 ov2 heq2 =>
      have hm2 := overwrite_file_mono heq2
      split at hr
      · -- emit_metadata = true
        split at hr
        case _ w3 e heq3 =>
          -- metadata write failed
          have hm3 := write_pkg_metadata_mono heq3
          refine ⟨fun hu e' hres => ?_, fun hu e' hres => ?_, fun hok => ?_⟩
          · rw [hu] at hr; rw [if_pos rfl] at hr
            injection hr with hwf hres'
            subst hwf
            constructor
            · intro p hp
              have hp2 : action.pkg_path <+: p := by
                rw [← List.isPrefixOf_iff_prefix]
                exact hp
              simp [World.remove_dir_all, hp2]
            · intro d hd
              simp only [World.remove_dir_all, List.mem_filter] at hd
              simpa using hd.2
          · rw [hu] at hr
            simp only [Bool.false_eq_true, if_false] at hr
            injection hr with hwf hres'
            subst hwf
            constructor
            · intro p hp
              have h2 : w0.files p = none := hm1.1 p (hm2.1 p (hm3.1 p hp))
              rwa [h0f] at h2
            · have h3 : w3.dirs = action.pkg_path :: w0.dirs := by
                rw [hm3.2, hm2.2]; exact hm1.2
              rw [h3]
              exact List.mem_cons_self _ _
          · injection hr with hwf hres'
            rw [← hres'] at hok
            exact absurd hok (by simp)
        case _ w3 u heq3 =>
          -- metadata written, success
          have hm3 := write_pkg_metadata_mono heq3
          injection hr with hwf hres'
          subst hwf
          refine ⟨fun hu e' hres => ?_, fun hu e' hres => ?_, fun hok => ?_⟩
          · rw [← hres'] at hres
            exact absurd hres (by simp)
          · rw [← hres'] at hres
            exact absurd hres (by simp)
          · constructor
            · intro p hp
              have h2 : w0.files p = none := hm1.1 p (hm2.1 p (hm3.1 p hp))
              rwa [h0f] at h2
            · have h3 : w3.dirs = action.pkg_path :: w0.dirs := by
                rw [hm3.2, hm2.2]; exact hm1.2
              rw [h3]
              exact List.mem_cons_self _ _
      · -- emit_metadata = false, success
        injection hr with hwf hres'
        subst hwf
        refine ⟨fun hu e' hres => ?_, fun hu e' hres => ?_, fun hok => ?_⟩
        · rw [← hres'] at hres
          exact absurd hres (by simp)
        · rw [← hres'] at hres
          exact absurd hres (by simp)
        · constructor
          · intro p hp
            have h2 : w0.files p = none := hm1.1 p (hm2.1 p hp)
            rwa [h0f] at h2
          · have h3 : w2.dirs = action.pkg_path :: w0.dirs := by
              rw [hm2.2]; exact hm1.2
            rw [h3]
            exact List.mem_cons_self _ _

/-- Witness for C6 at concrete inputs: a fault injected into the script write
of a cache-managed materialization leaves no trace of the package directory —
the pre-existing manifest file of the package directory is gone afterwards. -/
theorem gen_pkg_and_compile_cleanup_witness :
    (gen_pkg_and_compile (fun s => s) (fun _ => "") 7 (Input.Expr "e")
        ⟨false, true, true, true, ["c", "id"], true, none,
          ⟨none, false, [], [], none, "M", "S"⟩, none, "M", "S", .Normal⟩
        ⟨[["c", "id"]],
          fun q => if q = ["c", "id", "Cargo.toml"] then some ⟨"M", 0⟩
            else none,
          [false, false, true]⟩).1.files ["c", "id", "Cargo.toml"] = none := by
  have h := gen_pkg_and_compile_cleanup (fun s => s) (fun _ => "") 7
    (Input.Expr "e")
    ⟨false, true, true, true, ["c", "id"], true, none,
      ⟨none, false, [], [], none, "M", "S"⟩, none, "M", "S", .Normal⟩
    ⟨[["c", "id"]],
      fun q => if q = ["c", "id", "Cargo.toml"] then some ⟨"M", 0⟩
        else none,
      [false, false, true]⟩
    ((gen_pkg_and_compile (fun s => s) (fun _ => "") 7 (Input.Expr "e")
        ⟨false, true, true, true, ["c", "id"], true, none,
          ⟨none, false, [], [], none, "M", "S"⟩, none, "M", "S", .Normal⟩
        ⟨[["c", "id"]],
          fun q => if q = ["c", "id", "Cargo.toml"] then some ⟨"M", 0⟩
            else none,
          [false, false, true]⟩).1)
    ((gen_pkg_and_compile (fun s => s) (fun _ => "") 7 (Input.Expr "e")
        ⟨false, true, true, true, ["c", "id"], true, none,
          ⟨none, false, [], [], none, "M", "S"⟩, none, "M", "S", .Normal⟩
        ⟨[["c", "id"]],
          fun q => if q = ["c", "id", "Cargo.toml"] then some ⟨"M", 0⟩
            else none,
          [false, false, true]⟩).2)
    rfl rfl
  exact (h.1 rfl "error writing file" rfl).1 ["c", "id", "Cargo.toml"] rfl

/-! Claims C9 and C10: package-name derivation -/

/-- The position-independent character view of `package_name`: keep digits,
lowercase letters, `'_'` and `'-'`; case-fold uppercase ASCII letters;
replace everything else by `'_'`. -/
def lower_or_escape (c : Char) : Char :=
  if ('0' ≤ c ∧ c ≤ '9') ∨ ('a' ≤ c ∧ c ≤ 'z') ∨ c = '_' ∨ c = '-' then c
  else if 'A' ≤ c ∧ c ≤ 'Z' then to_ascii_lowercase c
  else '_'

/-- Helper: `Char.ofNat` of a scalar value below the surrogate range. -/
theorem char_toNat_ofNat_of_lt (n : Nat) (h : n < 55296) :
    (Char.ofNat n).toNat = n := by
  have hv : n.isValidChar := Or.inl h
  rw [Char.ofNat, dif_pos hv, Char.ofNatAux]
  simp [Char.toNat, UInt32.toNat]

/-- Helper: case-folding an uppercase ASCII letter lands in `'a'..='z'`. -/
theorem to_ascii_lowercase_upper {c : Char} (h : 'A' ≤ c ∧ c ≤ 'Z') :
    97 ≤ (to_ascii_lowercase c).toNat ∧ (to_ascii_lowercase c).toNat ≤ 122 := by
  have h1 : 65 ≤ c.toNat := by
    have := h.1
    rw [Char.le_def] at this
    exact this
  have h2 : c.toNat ≤ 90 := by
    have := h.2
    rw [Char.le_def] at this
    exact this
  rw [to_ascii_lowercase, if_pos h, char_toNat_ofNat_of_lt (c.toNat + 32) (by omega)]
  omega

/-- Helper: characters already in the identifier alphabet are unchanged. -/
theorem lower_or_escape_of_allowed {c : Char}
    (h : ('0' ≤ c ∧ c ≤ '9') ∨ ('a' ≤ c ∧ c ≤ 'z') ∨ c = '_' ∨ c = '-') :
    lower_or_escape c = c := by
  rw [lower_or_escape, if_pos h]

/-- Helper: every output character of `lower_or_escape` is in the identifier
alphabet. -/
theorem lower_or_escape_allowed (c : Char) :
    ('0' ≤ lower_or_escape c ∧ lower_or_escape c ≤ '9') ∨
    ('a' ≤ lower_or_escape c ∧ lower_or_escape c ≤ 'z') ∨
    lower_or_escape c = '_' ∨ lower_or_escape c = '-' := by
  by_cases h1 : ('0' ≤ c ∧ c ≤ '9') ∨ ('a' ≤ c ∧ c ≤ 'z') ∨ c = '_' ∨ c = '-'
  · rw [lower_or_escape_of_allowed h1]
    exact h1
  · rw [lower_or_escape, if_neg h1]
    by_cases h2 : 'A' ≤ c ∧ c ≤ 'Z'
    · rw [if_pos h2]
      have hb := to_ascii_lowercase_upper h2
      refine Or.inr (Or.inl ⟨?_, ?_⟩)
      · rw [Char.le_def]
        exact hb.1
      · rw [Char.le_def]
        exact hb.2
    · rw [if_neg h2]
      exact Or.inr (Or.inr (Or.inl rfl))

/-- Helper: `lower_or_escape` is idempotent. -/
theorem lower_or_escape_idem (c : Char) :
    lower_or_escape (lower_or_escape c) = lower_or_escape c :=
  lower_or_escape_of_allowed (lower_or_escape_allowed c)

/-- Helper: `lower_or_escape` never produces a digit from a non-digit. -/
theorem lower_or_escape_not_digit {c : Char} (h : ¬('0' ≤ c ∧ c ≤ '9')) :
    ¬('0' ≤ lower_or_escape c ∧ lower_or_escape c ≤ '9') := by
  by_cases h1 : ('0' ≤ c ∧ c ≤ '9') ∨ ('a' ≤ c ∧ c ≤ 'z') ∨ c = '_' ∨ c = '-'
  · rw [lower_or_escape_of_allowed h1]
    exact h
  · rw [lower_or_escape, if_neg h1]
    by_cases h2 : 'A' ≤ c ∧ c ≤ 'Z'
    · rw [if_pos h2]
      intro hd
      have hb := to_ascii_lowercase_upper h2
      have hd2 : (to_ascii_lowercase c).toNat ≤ 57 := by
        have := hd.2
        rw [Char.le_def] at this
        exact this
      omega
    · rw [if_neg h2]
      exact by decide

/-- Helper: away from index 0, `package_name_char` is `lower_or_escape`. -/
theorem package_name_char_pos {i : Nat} (h : i ≠ 0) (c : Char) :
    package_name_char i c = [lower_or_escape c] := by
  rw [package_name_char, lower_or_escape, if_neg (fun hc => h hc.1)]
  by_cases h1 : ('0' ≤ c ∧ c ≤ '9') ∨ ('a' ≤ c ∧ c ≤ 'z') ∨ c = '_' ∨ c = '-'
  · rw [if_pos h1, if_pos h1]
  · rw [if_neg h1, if_neg h1]
    by_cases h2 : 'A' ≤ c ∧ c ≤ 'Z'
    · rw [if_pos h2, if_pos h2]
    · rw [if_neg h2, if_neg h2]

/-- Helper: at index 0, `package_name_char` additionally escapes a digit. -/
theorem package_name_char_zero (c : Char) :
    package_name_char 0 c =
      (if '0' ≤ c ∧ c ≤ '9' then ['_'] else []) ++ [lower_or_escape c] := by
  by_cases hd : '0' ≤ c ∧ c ≤ '9'
  · rw [package_name_char, if_pos ⟨rfl, hd⟩, if_pos hd,
      lower_or_escape_of_allowed (Or.inl hd)]
    rfl
  · rw [package_name_char, if_neg (fun hc => hd hc.2), if_neg hd,
      List.nil_append, lower_or_escape]
    by_cases h1 : ('0' ≤ c ∧ c ≤ '9') ∨ ('a' ≤ c ∧ c ≤ 'z') ∨ c = '_' ∨ c = '-'
    · rw [if_pos h1, if_pos h1]
    · rw [if_neg h1, if_neg h1]
      by_cases h2 : 'A' ≤ c ∧ c ≤ 'Z'
      · rw [if_pos h2, if_pos h2]
      · rw [if_neg h2, if_neg h2]

/-- Helper: the tail of the character loop (indices ≥ 1) maps each character
through `lower_or_escape`. -/
theorem flatten_map_enumFrom (l : List Char) (n : Nat) :
    ((l.enumFrom (n + 1)).map (fun ic => package_name_char ic.1 ic.2)).flatten =
      l.map lower_or_escape := by
  induction l generalizing n with
  | nil => rfl
  | cons c t ih =>
    simp only [List.enumFrom, List.map, List.flatten_cons]
    rw [package_name_char_pos (Nat.succ_ne_zero n) c, ih (n + 1)]
    rfl

/-- Helper: closed form of `package_name` — a `'_'` prefix exactly when the
name starts with a digit, then `lower_or_escape` applied characterwise. -/
theorem package_name_eq (input : Input) :
    input.package_name =
      match input.safe_name.data with
      | [] => ""
      | c :: rest =>
        ⟨(if '0' ≤ c ∧ c ≤ '9' then ['_'] else []) ++
          (lower_or_escape c :: rest.map lower_or_escape)⟩ := by
  rcases hd : input.safe_name.data with _ | ⟨c, rest⟩
  · rw [Input.package_name, hd]
    rfl
  · rw [Input.package_name, hd]
    simp only [List.enum, List.enumFrom, List.map, List.flatten_cons]
    rw [package_name_char_zero, flatten_map_enumFrom rest 0]
    congr 1
    simp [List.append_assoc]

/-- C9: deriving a package identifier from `"1Script"` yields `"_1script"`,
from `"Script"` yields `"script"`; in general a leading digit is escaped by a
prepended underscore and every character is passed through `lower_or_escape`
(uppercase ASCII case-folded, disallowed characters replaced by `'_'`). -/
theorem package_name_correct :
    ((Input.File "1Script" "/p" "s").package_name = "_1script") ∧
    ((Input.File "Script" "/p" "s").package_name = "script") ∧
    (∀ (name path content : String) (c : Char) (rest : List Char),
      name.data = c :: rest →
      (Input.File name path content).package_name =
        ⟨(if '0' ≤ c ∧ c ≤ '9' then ['_'] else []) ++
          (lower_or_escape c :: rest.map lower_or_escape)⟩) := by
  refine ⟨by decide, by decide, fun name path content c rest h => ?_⟩
  rw [package_name_eq]
  simp only [Input.safe_name]
  rw [h]

/-- Witness for C9's general clause at a concrete name. -/
theorem package_name_correct_witness :
    (Input.File "Ab" "/p" "s").package_name =
      ⟨(if '0' ≤ 'A' ∧ 'A' ≤ '9' then ['_'] else []) ++
        (lower_or_escape 'A' :: ['b'].map lower_or_escape)⟩ :=
  package_name_correct.2.2 "Ab" "/p" "s" 'A' ['b'] rfl

/-- C10: `package_name` is idempotent — deriving a package identifier from an
already-derived identifier changes nothing, because the output consists only
of identifier-alphabet characters and never begins with a digit. -/
theorem package_name_idempotent (input : Input) (path content : String) :
    (Input.File input.package_name path content).package_name =
      input.package_name := by
  rcases hd : input.safe_name.data with _ | ⟨c, rest⟩
  · rw [package_name_eq input, hd]
    show (Input.File "" path content).package_name = ""
    rw [package_name_eq (Input.File "" path content)]
    rfl
  · rw [package_name_eq input, hd]
    dsimp only
    by_cases hdig : '0' ≤ c ∧ c ≤ '9'
    · rw [if_pos hdig]
      rw [package_name_eq]
      dsimp only [Input.safe_name]
      simp only [List.cons_append, List.nil_append]
      rw [if_neg (by decide : ¬('0' ≤ '_' ∧ '_' ≤ '9'))]
      rw [lower_or_escape_of_allowed (Or.inr (Or.inr (Or.inl rfl)))]
      congr 1
      simp only [List.nil_append, List.map_cons]
      rw [lower_or_escape_idem]
      rw [List.map_map]
      exact congrArg (fun t => '_' :: lower_or_escape c :: t)
        (List.map_congr_left (fun x _ => lower_or_escape_idem x))
    · rw [if_neg hdig]
      rw [package_name_eq]
      dsimp only [Input.safe_name]
      simp only [List.nil_append]
      rw [if_neg (lower_or_escape_not_digit hdig)]
      congr 1
      simp only [List.nil_append, List.map_cons]
      rw [lower_or_escape_idem, List.map_map]
      exact congrArg (fun t => lower_or_escape c :: t)
        (List.map_congr_left (fun x _ => lower_or_escape_idem x))

end RustScript
